import Mathlib

/-!
Shallow embedding of the speech-to-text assistive interface
(`src/src/App.tsx`, duplicated in `src/unnamed/part_000`).

The app has two cores:

* the transcript session controller: React state
  `isListening / latestTranscript / messages / error` mutated by the
  recognizer callbacks `recognition.onresult`, `recognition.onend`,
  `recognition.onerror` and the user command `toggleListening`;
* the auto-fit display engine `useFitText`: a linear downward scan from
  font size 150 that stops at the first size without overflow, with floor 10.

Pure functions below are direct translations of those handlers; the React
state cell quartet is the `AppState` record, and a recognizer result slot
`event.results[i]` is a `SpeechResult` (carrying the transcript of its best
alternative `event.results[i][0].transcript`).
-/

/-- One recognizer result slot `event.results[i]`: the `isFinal` tag and the
transcript fragment of its best alternative `event.results[i][0].transcript`. -/
structure SpeechResult where
  isFinal : Bool
  transcript : String
  deriving DecidableEq

/-- One `onresult` callback payload: `event.resultIndex` and the ordered
sequence `event.results`. -/
structure TranscriptEvent where
  resultIndex : Nat
  results : List SpeechResult
  deriving DecidableEq

/-- A conversation-history entry `{ text, timestamp }` (`Date.now()` modelled
as a `Nat`). -/
structure Message where
  text : String
  timestamp : Nat
  deriving DecidableEq

/-- The four React state cells of `App`: `isListening`, `latestTranscript`,
`messages`, `error`. -/
structure AppState where
  isListening : Bool
  latestTranscript : String
  messages : List Message
  error : String
  deriving DecidableEq

/-- Model of JavaScript `String.prototype.trim` (`prev.trim()` in `onend`):
strip leading and trailing whitespace. -/
def jsTrim (s : String) : String :=
  (List.rdropWhile Char.isWhitespace (s.toList.dropWhile Char.isWhitespace)).asString

/-- Handler `recognition.onresult` (App.tsx lines 125-137): one pass over the
slots from `event.resultIndex` to the end, appending each final slot fragment
to `finalTranscript` and each non-final slot fragment to `interimTranscript`,
then `setLatestTranscript(finalTranscript + interimTranscript)`. -/
def onresult (ev : TranscriptEvent) (s : AppState) : AppState :=
  let parts := (ev.results.drop ev.resultIndex).foldl
    (fun acc r =>
      if r.isFinal then (acc.1 ++ r.transcript, acc.2)
      else (acc.1, acc.2 ++ r.transcript))
    ("", "")
  { s with latestTranscript := parts.1 ++ parts.2 }

/-- Handler `recognition.onend` (App.tsx lines 139-150): `setIsListening(false)`;
if the previous transcript trims to a truthy (non-empty) string, append a
message carrying the trimmed text and the current time to `messages`; reset
`latestTranscript` to the empty string. -/
def onend (now : Nat) (s : AppState) : AppState :=
  if jsTrim s.latestTranscript ≠ "" then
    { s with isListening := false,
             messages := s.messages ++ [⟨jsTrim s.latestTranscript, now⟩],
             latestTranscript := "" }
  else
    { s with isListening := false, latestTranscript := "" }

/-- The distinguished `no-speech` message set by `recognition.onerror`. -/
def noSpeechMsg : String := "음성이 감지되지 않았습니다. 다시 시도해주세요."

/-- The generic error message built by `recognition.onerror` for any other
code: the fixed Korean prefix followed by the raw error code. -/
def genericErrorMsg (code : String) : String := "음성 인식 오류: " ++ code

/-- Handler `recognition.onerror` (App.tsx lines 152-159): the code
`no-speech` gets the distinguished message, every other code the generic
message embedding the raw code; `setIsListening(false)`. -/
def onerror (code : String) (s : AppState) : AppState :=
  { s with
    error := if code = "no-speech" then noSpeechMsg else genericErrorMsg code,
    isListening := false }

/-- A command issued to the external recognition capability
(`recognition.start()` / `recognition.stop()`). -/
inductive RecCmd where
  | start
  | stop
  deriving DecidableEq

/-- The click handler `toggleListening` (App.tsx lines 162-171). The flag
`hasRec` records whether the module initialiser found a `SpeechRecognition`
constructor (`recognition` is non-null). When it did, the handler returns the
new state and the command sent to the recognizer. When `recognition` is null,
the member call on it throws a `TypeError`: the result is `Except.error`
carrying the state at the throw — in the idle branch the empty-string updates
to `error` and `latestTranscript` are already enqueued before
`recognition.start()` is reached, so they still apply. -/
def toggleListening (hasRec : Bool) (s : AppState) : Except AppState (AppState × RecCmd) :=
  if s.isListening then
    if hasRec then Except.ok ({ s with isListening := false }, RecCmd.stop)
    else Except.error s
  else
    if hasRec then
      Except.ok ({ s with error := "", latestTranscript := "", isListening := true }, RecCmd.start)
    else Except.error { s with error := "", latestTranscript := "" }

/-- The state after a `toggleListening` click, whether or not it threw. -/
def toggleState (hasRec : Bool) (s : AppState) : AppState :=
  match toggleListening hasRec s with
  | Except.ok (s', _) => s'
  | Except.error s' => s'

/-- The fixed "unsupported" message set by the mount effect when no
`SpeechRecognition` constructor exists (App.tsx:117-123). -/
def unsupportedMsg : String :=
  "이 브라우저는 음성 인식을 지원하지 않습니다. Chrome 또는 Safari 최신 버전을 사용해주세요."

/-- App state right after mount and the initialisation effect: all `useState`
initials, with `error` set to the fixed unsupported message when the platform
offers no recognition capability. -/
def initialState (hasRec : Bool) : AppState :=
  { isListening := false, latestTranscript := "", messages := [],
    error := if hasRec then "" else unsupportedMsg }

/-- The operations that mutate `AppState`: the three recognizer callbacks and
the user toggle. -/
inductive Op where
  | result (ev : TranscriptEvent)
  | sessionEnd (now : Nat)
  | recError (code : String)
  | toggle

/-- One state transition of the app under operation `op`. -/
def step (hasRec : Bool) : Op → AppState → AppState
  | Op.result ev, s => onresult ev s
  | Op.sessionEnd now, s => onend now s
  | Op.recError code, s => onerror code s
  | Op.toggle, s => toggleState hasRec s

/-- The overflow test of `useFitText` at font size `n`:
`el.scrollWidth > parent.clientWidth || el.scrollHeight > parent.clientHeight`,
with the rendered scroll dimensions abstracted as functions `sw`, `sh` of the
font size. -/
def overflowAt (sw sh : Nat → Nat) (cw ch : Nat) (n : Nat) : Bool :=
  decide (sw n > cw) || decide (sh n > ch)

/-- The `while` loop of `useFitText` (App.tsx:35-46), argument =
`currentFontSize`: while overflow at the current size and the size exceeds 10,
decrement; return the first size that exits the loop. -/
def fitLoop (ov : Nat → Bool) : Nat → Nat
  | 0 => 0
  | n + 1 => if ov (n + 1) = true ∧ 10 < n + 1 then fitLoop ov n else n + 1

/-- Body of the resize observer inside `useFitText`: start the scan at 150. -/
def computeFontSize (ov : Nat → Bool) : Nat := fitLoop ov 150

/-- The font size `useFitText` settles on for measurement functions `sw`, `sh`
and container dimensions `cw`, `ch`. -/
def fitFontSize (sw sh : Nat → Nat) (cw ch : Nat) : Nat :=
  computeFontSize (overflowAt sw sh cw ch)

/-- Concatenation, in slot order, of the transcript fragments of a slot
list. -/
def concatTranscripts (l : List SpeechResult) : String :=
  String.join (l.map (fun r => r.transcript))

/-- Concatenation, in slot order, of the fragments of the final slots. -/
def finalConcat (l : List SpeechResult) : String :=
  concatTranscripts (l.filter (fun r => r.isFinal))

/-- Concatenation, in slot order, of the fragments of the interim slots. -/
def interimConcat (l : List SpeechResult) : String :=
  concatTranscripts (l.filter (fun r => !r.isFinal))

/-- The history invariant of the spec: every stored message trims to a
non-empty string. -/
def historyOk (s : AppState) : Prop :=
  ∀ m ∈ s.messages, jsTrim m.text ≠ ""

/-- A concrete listening state whose live transcript carries trailing
whitespace, used to instantiate the end-of-session theorems. -/
def exListeningState : AppState :=
  { isListening := true, latestTranscript := "안녕하세요  ", messages := [],
    error := "" }

/-- A concrete listening state whose live transcript is whitespace only. -/
def wsState : AppState :=
  { isListening := true, latestTranscript := "   ", messages := [], error := "" }

/-- Example scroll-width measurement: the rendered width equals the font
size. -/
def exSW : Nat → Nat := fun n => n

/-- Example scroll-height measurement: the rendered height is always zero. -/
def exSH : Nat → Nat := fun _ => 0

/-- Joining a cons is the head appended to the join of the tail. -/
theorem strJoin_cons (s : String) (l : List String) :
    String.join (s :: l) = s ++ String.join l := by
  apply String.toList_inj.mp
  simp [String.toList]

/-- The transcript concatenation of a cons. -/
theorem concatTranscripts_cons (r : SpeechResult) (l : List SpeechResult) :
    concatTranscripts (r :: l) = r.transcript ++ concatTranscripts l := by
  simp [concatTranscripts, strJoin_cons]

/-- The accumulator pair of the `onresult` loop: starting from `(a, b)`, the
pass over `l` produces `a` extended by the final fragments and `b` extended by
the interim fragments. -/
theorem onresult_foldl_eq (l : List SpeechResult) (a b : String) :
    l.foldl
      (fun acc r =>
        if r.isFinal then (acc.1 ++ r.transcript, acc.2)
        else (acc.1, acc.2 ++ r.transcript))
      (a, b)
      = (a ++ finalConcat l, b ++ interimConcat l) := by
  induction l generalizing a b with
  | nil => simp [finalConcat, interimConcat, concatTranscripts, String.join]
  | cons r rs ih =>
    cases hf : r.isFinal <;>
      simp [finalConcat, interimConcat, List.filter_cons, hf, ih,
        concatTranscripts_cons, String.append_assoc]

/-- C1: after any `onresult` callback, the live transcript equals the
concatenation of the final-slot fragments of the slots from the event start
index onward, in slot order, followed by the concatenation of the interim-slot
fragments in slot order, regardless of the previous state. -/
theorem onresult_replaces_transcript (ev : TranscriptEvent) (s : AppState) :
    (onresult ev s).latestTranscript =
      finalConcat (ev.results.drop ev.resultIndex) ++
        interimConcat (ev.results.drop ev.resultIndex) := by
  simp [onresult, onresult_foldl_eq]

/-- C10: an `onresult` callback changes only the live transcript; the
history, the listening flag and the error message are untouched. -/
theorem onresult_frame (ev : TranscriptEvent) (s : AppState) :
    (onresult ev s).messages = s.messages ∧
    (onresult ev s).isListening = s.isListening ∧
    (onresult ev s).error = s.error :=
  ⟨rfl, rfl, rfl⟩

/-- C8: an `onerror` callback leaves the conversation history and the live
transcript unchanged — no flush into history happens on error. -/
theorem onerror_frame (code : String) (s : AppState) :
    (onerror code s).messages = s.messages ∧
    (onerror code s).latestTranscript = s.latestTranscript :=
  ⟨rfl, rfl⟩

/-- C3: when the live transcript trims to a non-empty string, the
end-of-session handler appends exactly one message carrying the trimmed
transcript and the end-of-session time, resets the live transcript to the
empty string, and clears the listening flag. -/
theorem onend_flushes_transcript (now : Nat) (s : AppState)
    (h : jsTrim s.latestTranscript ≠ "") :
    (onend now s).messages = s.messages ++ [⟨jsTrim s.latestTranscript, now⟩] ∧
    (onend now s).latestTranscript = "" ∧
    (onend now s).isListening = false := by
  simp [onend, h]

/-- Witness for C3 at the concrete listening state whose transcript is a
Korean greeting with trailing blanks, ended at time 5. -/
theorem onend_flushes_transcript_witness :
    (onend 5 exListeningState).messages =
      exListeningState.messages ++ [⟨jsTrim exListeningState.latestTranscript, 5⟩] ∧
    (onend 5 exListeningState).latestTranscript = "" ∧
    (onend 5 exListeningState).isListening = false :=
  onend_flushes_transcript 5 exListeningState (by decide)

/-- C6 (failing input): with no recognition capability the mount effect does
set the fixed unsupported message, but a toggle from idle is not a no-op
rejection — the handler clears `error` and `latestTranscript` and then throws
a `TypeError` on `recognition.start()` (the `Except.error` outcome), so the
session state is changed, contradicting the requirement that rejected start
commands leave it unchanged. -/
theorem toggle_without_capability_throws :
    (initialState false).error = unsupportedMsg ∧
    unsupportedMsg ≠ "" ∧
    toggleListening false (initialState false) =
      Except.error { isListening := false, latestTranscript := "", messages := [],
                     error := "" } ∧
    toggleState false (initialState false) ≠ initialState false :=
  ⟨rfl, by decide, rfl, by decide⟩

/-- C7: every `onerror` callback clears the listening flag; the code
`no-speech` yields the distinguished message, and any other code yields the
generic message, which contains the raw code as a substring. -/
theorem onerror_sets_error (code : String) (s : AppState) :
    (onerror code s).isListening = false ∧
    (code = "no-speech" → (onerror code s).error = noSpeechMsg) ∧
    (code ≠ "no-speech" →
      ∃ pre post : String, (onerror code s).error = pre ++ code ++ post) := by
  refine ⟨rfl, ?_, ?_⟩
  · intro h
    simp [onerror, h]
  · intro h
    refine ⟨"음성 인식 오류: ", "", ?_⟩
    simp [onerror, genericErrorMsg, h]

/-- Witness for C7 at the concrete code `network`. -/
theorem onerror_sets_error_witness :
    (onerror "network" (initialState true)).isListening = false ∧
    (∃ pre post : String,
      (onerror "network" (initialState true)).error = pre ++ "network" ++ post) :=
  ⟨(onerror_sets_error "network" (initialState true)).1,
   (onerror_sets_error "network" (initialState true)).2.2 (by decide)⟩

/-- C9: a toggle while idle (with the capability present) clears the error
and the live transcript, sets the listening flag, issues the start command,
and leaves the conversation history unchanged. -/
theorem toggle_idle_starts (s : AppState) (h : s.isListening = false) :
    toggleListening true s =
      Except.ok ({ s with error := "", latestTranscript := "", isListening := true },
        RecCmd.start) ∧
    ({ s with error := "", latestTranscript := "", isListening := true } : AppState).messages
      = s.messages := by
  refine ⟨?_, rfl⟩
  simp [toggleListening, h]

/-- Witness for C9 at the freshly mounted state with the capability
present. -/
theorem toggle_idle_starts_witness :
    toggleListening true (initialState true) =
      Except.ok ({ (initialState true) with
        error := "", latestTranscript := "", isListening := true }, RecCmd.start) :=
  (toggle_idle_starts (initialState true) (by decide)).1

/-- The scan never increases the font size. -/
theorem fitLoop_le (ov : Nat → Bool) (n : Nat) : fitLoop ov n ≤ n := by
  induction n with
  | zero => simp [fitLoop]
  | succ k ih =>
    rw [fitLoop]
    split
    · exact Nat.le_trans ih (Nat.le_succ k)
    · exact Nat.le_refl _

/-- Starting at or above the floor, the scan never drops below it. -/
theorem fitLoop_ge (ov : Nat → Bool) (n : Nat) (h : 10 ≤ n) :
    10 ≤ fitLoop ov n := by
  induction n with
  | zero => omega
  | succ k ih =>
    rw [fitLoop]
    split
    · next hc => exact ih (by omega)
    · exact h

/-- The scan stops either at a size without overflow or at the floor. -/
theorem fitLoop_exit (ov : Nat → Bool) (n : Nat) (h : 10 ≤ n) :
    ov (fitLoop ov n) = false ∨ fitLoop ov n = 10 := by
  induction n with
  | zero => omega
  | succ k ih =>
    rw [fitLoop]
    split
    · next hc => exact ih (by omega)
    · next hc =>
      by_cases hov : ov (k + 1) = true
      · right
        have hk : ¬ 10 < k + 1 := fun h10 => hc ⟨hov, h10⟩
        omega
      · exact Or.inl (by simpa using hov)

/-- Any size at most the start that does not overflow bounds the scan result
from below — the scan cannot step past a fitting size. -/
theorem fitLoop_max (ov : Nat → Bool) (n t : Nat) (ht : t ≤ n)
    (hf : ov t = false) : t ≤ fitLoop ov n := by
  induction n with
  | zero => omega
  | succ k ih =>
    rw [fitLoop]
    split
    · next hc =>
      refine ih ?_
      rcases Nat.lt_or_ge t (k + 1) with hlt | hge
      · omega
      · exfalso
        have : t = k + 1 := by omega
        rw [this] at hf
        rw [hf] at hc
        exact absurd hc.1 (by simp)
    · exact ht

/-- Full characterisation of the scan started at 150 for an abstract overflow
test that is monotone in the font size. -/
theorem computeFontSize_spec (ov : Nat → Bool)
    (mono : ∀ s t : Nat, s ≤ t → ov s = true → ov t = true) :
    ((∀ t, 10 ≤ t → t ≤ 150 → ov t = true) → computeFontSize ov = 10) ∧
    (∀ t, 10 ≤ t → t ≤ 150 → ov t = false →
      10 ≤ computeFontSize ov ∧ computeFontSize ov ≤ 150 ∧
      ov (computeFontSize ov) = false ∧ t ≤ computeFontSize ov) := by
  have hge := fitLoop_ge ov 150 (by omega)
  have hle := fitLoop_le ov 150
  have hexit := fitLoop_exit ov 150 (by omega)
  constructor
  · intro hall
    rcases hexit with hfit | hfloor
    · exact absurd (hall _ hge hle) (by simp [hfit])
    · exact hfloor
  · intro t ht10 ht150 htf
    have hmax := fitLoop_max ov 150 t ht150 htf
    refine ⟨hge, hle, ?_, hmax⟩
    rcases hexit with hfit | hfloor
    · exact hfit
    · have hten : computeFontSize ov = 10 := hfloor
      rw [hten]
      by_cases h10 : ov 10 = true
      · exact absurd (mono 10 t ht10 h10) (by simp [htf])
      · simpa using h10

/-- C2: for any text measurements and container dimensions, if overflow is
monotone in the font size then `useFitText` settles on the largest integer
size in the range 10 to 150 whose rendered scroll dimensions do not exceed
the container client dimensions, and on exactly 10 when every size in the
range overflows. -/
theorem fitFontSize_largest (sw sh : Nat → Nat) (cw ch : Nat)
    (mono : ∀ s t : Nat, s ≤ t → overflowAt sw sh cw ch s = true →
      overflowAt sw sh cw ch t = true) :
    ((∀ t, 10 ≤ t → t ≤ 150 → overflowAt sw sh cw ch t = true) →
      fitFontSize sw sh cw ch = 10) ∧
    (∀ t, 10 ≤ t → t ≤ 150 → overflowAt sw sh cw ch t = false →
      10 ≤ fitFontSize sw sh cw ch ∧ fitFontSize sw sh cw ch ≤ 150 ∧
      overflowAt sw sh cw ch (fitFontSize sw sh cw ch) = false ∧
      t ≤ fitFontSize sw sh cw ch) :=
  computeFontSize_spec (overflowAt sw sh cw ch) mono

/-- Witness for C2: width measured as the font size itself against a
container of client width 40 — the engine settles on a size in the range, at
least 40, with no overflow. -/
theorem fitFontSize_largest_witness :
    10 ≤ fitFontSize exSW exSH 40 0 ∧ fitFontSize exSW exSH 40 0 ≤ 150 ∧
    overflowAt exSW exSH 40 0 (fitFontSize exSW exSH 40 0) = false ∧
    40 ≤ fitFontSize exSW exSH 40 0 :=
  (fitFontSize_largest exSW exSH 40 0 (fun s t hst hs => by
      simp only [overflowAt, exSW, exSH, Bool.or_eq_true, decide_eq_true_eq] at hs ⊢
      omega)).2 40 (by decide) (by decide) (by decide)

/-- Stripping trailing whitespace after the leading strip cannot expose new
leading whitespace. -/
theorem dropWhile_rdropWhile_self {α : Type} (p : α → Bool) (l : List α) :
    (List.rdropWhile p (l.dropWhile p)).dropWhile p
      = List.rdropWhile p (l.dropWhile p) := by
  cases ht : List.rdropWhile p (l.dropWhile p) with
  | nil => simp
  | cons c cs =>
    have hpre : List.rdropWhile p (l.dropWhile p) <+: l.dropWhile p :=
      List.rdropWhile_prefix p (l.dropWhile p)
    rw [ht] at hpre
    obtain ⟨u, hu⟩ := hpre
    have hid : (l.dropWhile p).dropWhile p = l.dropWhile p :=
      List.dropWhile_idempotent p l
    rw [← hu] at hid
    by_cases hpc : p c = true
    · exfalso
      rw [List.cons_append, List.dropWhile_cons_of_pos hpc] at hid
      have hlen := congrArg List.length hid
      have hsuf : List.dropWhile p (cs ++ u) <:+ (cs ++ u) := List.dropWhile_suffix p
      have hle := hsuf.sublist.length_le
      simp at hlen hle
      omega
    · simp [List.dropWhile_cons, hpc]

/-- The modelled JavaScript trim is idempotent. -/
theorem jsTrim_idem (s : String) : jsTrim (jsTrim s) = jsTrim s := by
  unfold jsTrim
  rw [List.toList_asString, dropWhile_rdropWhile_self, List.rdropWhile_idempotent]

/-- A toggle click never touches the conversation history, whether it starts,
stops, or throws. -/
theorem toggleState_messages (hasRec : Bool) (s : AppState) :
    (toggleState hasRec s).messages = s.messages := by
  cases hasRec <;> cases hsl : s.isListening <;>
    simp [toggleState, toggleListening, hsl]

/-- C4: the history invariant — every stored message trims to a non-empty
string — holds at the initial state, is preserved by every operation of the
program, and an end-of-session whose live transcript is whitespace-only
appends nothing to the history. -/
theorem history_messages_trimmed :
    (∀ hasRec : Bool, historyOk (initialState hasRec)) ∧
    (∀ (hasRec : Bool) (op : Op) (s : AppState),
      historyOk s → historyOk (step hasRec op s)) ∧
    (∀ (now : Nat) (s : AppState),
      jsTrim s.latestTranscript = "" → (onend now s).messages = s.messages) := by
  refine ⟨?_, ?_, ?_⟩
  · intro hasRec m hm
    simp [initialState] at hm
  · intro hasRec op s hs
    cases op with
    | result ev => intro m hm; exact hs m hm
    | sessionEnd now =>
      intro m hm
      by_cases h : jsTrim s.latestTranscript = ""
      · simp [step, onend, h] at hm
        exact hs m hm
      · simp [step, onend, h] at hm
        rcases hm with hm | hm
        · exact hs m hm
        · rw [hm]
          simp [jsTrim_idem, h]
    | recError code => intro m hm; exact hs m hm
    | toggle =>
      intro m hm
      apply hs
      rwa [show step hasRec Op.toggle s = toggleState hasRec s from rfl,
        toggleState_messages] at hm
  · intro now s h
    simp [onend, h]

/-- Witness for C4 at the whitespace-only listening state ended at time 7. -/
theorem history_messages_trimmed_witness :
    (onend 7 wsState).messages = wsState.messages :=
  history_messages_trimmed.2.2 7 wsState (by decide)

/-- C5: every operation of the program either leaves the conversation history
unchanged or extends it by exactly one message appended at the end, so
earlier messages keep their place, text and timestamp. -/
theorem history_append_only (hasRec : Bool) (op : Op) (s : AppState) :
    (step hasRec op s).messages = s.messages ∨
    ∃ m : Message, (step hasRec op s).messages = s.messages ++ [m] := by
  cases op with
  | result ev => exact Or.inl rfl
  | sessionEnd now =>
    by_cases h : jsTrim s.latestTranscript = ""
    · exact Or.inl (by simp [step, onend, h])
    · exact Or.inr ⟨⟨jsTrim s.latestTranscript, now⟩, by simp [step, onend, h]⟩
  | recError code => exact Or.inl rfl
  | toggle => exact Or.inl (toggleState_messages hasRec s)
